import Mathlib

/-!
# Verification of the ford-mailer campaign dispatch engine

Shallow embedding of the contact normalization, deduplication, retry
classification, queueing and campaign-runner logic of the ford-mailer
repository, together with theorems settling the specification claims.

Strings are modelled by Lean `String`; the character-level operations of the
JavaScript source (`trim`, `startsWith`, `indexOf`, `slice`, regexes) are
implemented on `List Char` and lifted.
-/

set_option autoImplicit false

namespace FordMailer

/-! ## Character and string primitives -/

/-- The whitespace characters recognised by JavaScript `String.prototype.trim`
(common ASCII subset: space, tab, LF, CR, VT, FF). -/
def isJsWs (c : Char) : Bool :=
  c == ' ' || c == '\t' || c == '\n' || c == '\r' || c == '\x0b' || c == '\x0c'

/-- JS `String.prototype.trim`: drop leading and trailing whitespace. -/
def trimChars (s : List Char) : List Char :=
  ((s.dropWhile isJsWs).reverse.dropWhile isJsWs).reverse

/-- The regex character class `\d`. -/
def isDigitChar (c : Char) : Bool := '0' ≤ c && c ≤ '9'

/-- JS `String.prototype.startsWith` on char lists. -/
def startsWithChars : List Char → List Char → Bool
  | _, [] => true
  | [], _ :: _ => false
  | a :: as, b :: bs => a == b && startsWithChars as bs

/-- JS `String.prototype.startsWith`. -/
def strStartsWith (s p : String) : Bool := startsWithChars s.data p.data

/-- JS `String.prototype.indexOf` for a substring: index of the first occurrence,
`none` standing for JavaScript's `-1`. -/
def findSubIdx : List Char → List Char → Option Nat
  | [], sub => if startsWithChars [] sub then some 0 else none
  | c :: t, sub =>
    if startsWithChars (c :: t) sub then some 0
    else (findSubIdx t sub).map (· + 1)

/-- JS `String.prototype.includes` for a substring. -/
def hasSubChars (s sub : List Char) : Bool := (findSubIdx s sub).isSome

/-! ## mailer/utils/phone.js -/

/-- The regex `/^[1-9]\d{1,14}$/` of `isValidE164` as a matcher on char
lists: a `[1-9]` digit followed by one to fourteen `\d` digits. -/
def matchE164 : List Char → Bool
  | [] => false
  | c :: rest =>
    ('1' ≤ c && c ≤ '9') && decide (1 ≤ rest.length) &&
      decide (rest.length ≤ 14) && rest.all isDigitChar

/-- The function `isValidE164` (mailer/utils/phone.js): tests the E.164-without-plus regex
against `String(phone || '').trim()`. -/
def isValidE164 (phone : String) : Bool := matchE164 (trimChars phone.data)

/-- Step (2a) of `normalizeWhatsAppPhone` for Argentina: when the normalized
number keeps more than 13 digits, remove the first `'15'` occurrence found
after the `'54'` country code. -/
def arRemove15 (n : List Char) : List Char :=
  if 13 < n.length then
    let afterCC := n.drop 2
    match findSubIdx afterCC ['1', '5'] with
    | some idx => '5' :: '4' :: (afterCC.take idx ++ afterCC.drop (idx + 2))
    | none => n
  else n

/-- Step (2b) of `normalizeWhatsAppPhone` for Argentina: force the mobile
`'9'` marker right after the `'54'` country code. -/
def ensure549 (n : List Char) : List Char :=
  if startsWithChars n ['5', '4', '9'] then n else '5' :: '4' :: '9' :: n.drop 2

/-- The function `normalizeWhatsAppPhone` (mailer/utils/phone.js), starting from the result
of the global `normalizePhone` pass: `normalizePhone` delegates to the external
`libphonenumber-js` library, so its output (an E.164 digit string, or `null`)
is the input here. Mirrors the Argentina-specific correction branch and the
final `isValidE164` gate of the source. -/
def normalizeWhatsAppPhoneFrom (normalized : Option String) : Option String :=
  match normalized with
  | none => none
  | some normStr =>
    if strStartsWith normStr "54" then
      let n := ensure549 (arRemove15 normStr.data)
      if isValidE164 (String.mk n) then some (String.mk n) else none
    else
      if isValidE164 normStr then some normStr else none

/-! ## Helper lemmas on the string primitives -/

theorem isJsWs_eq_false_of_digit {c : Char} (h : isDigitChar c = true) :
    isJsWs c = false := by
  simp only [isDigitChar, Bool.and_eq_true, decide_eq_true_eq] at h
  simp only [isJsWs, Bool.or_eq_false_iff, beq_eq_false_iff_ne, ne_eq]
  refine ⟨⟨⟨⟨⟨?_, ?_⟩, ?_⟩, ?_⟩, ?_⟩, ?_⟩ <;>
    rintro rfl <;> exact absurd h.1 (by decide)

theorem dropWhile_isJsWs_of_all_digits (s : List Char)
    (h : s.all isDigitChar = true) : s.dropWhile isJsWs = s := by
  cases s with
  | nil => rfl
  | cons a t =>
    simp only [List.all_cons, Bool.and_eq_true] at h
    simp [List.dropWhile_cons, isJsWs_eq_false_of_digit h.1]

theorem trimChars_eq_self_of_all_digits (s : List Char)
    (h : s.all isDigitChar = true) : trimChars s = s := by
  unfold trimChars
  rw [dropWhile_isJsWs_of_all_digits s h,
    dropWhile_isJsWs_of_all_digits s.reverse (by simpa using h),
    List.reverse_reverse]

theorem startsWithChars_length {s p : List Char}
    (h : startsWithChars s p = true) : p.length ≤ s.length := by
  induction p generalizing s with
  | nil => simp
  | cons b bs ih =>
    cases s with
    | nil => simp [startsWithChars] at h
    | cons a as =>
      simp only [startsWithChars, Bool.and_eq_true] at h
      simpa using ih h.2

theorem findSubIdx_bound {s sub : List Char} {i : Nat}
    (h : findSubIdx s sub = some i) : i + sub.length ≤ s.length := by
  induction s generalizing i with
  | nil =>
    simp only [findSubIdx] at h
    split at h
    · rename_i hs
      cases h
      simpa using startsWithChars_length hs
    · cases h
  | cons c t ih =>
    simp only [findSubIdx] at h
    split at h
    · rename_i hs
      cases h
      simpa using startsWithChars_length hs
    · cases hft : findSubIdx t sub with
      | none => rw [hft] at h; cases h
      | some j =>
        rw [hft] at h
        simp only [Option.map_some', Option.some.injEq] at h
        have hb := ih hft
        simp only [List.length_cons]
        omega

theorem matchE164_eq_true {c : Char} {rest : List Char}
    (h1 : '1' ≤ c) (h9 : c ≤ '9') (hlen1 : 1 ≤ rest.length)
    (hlen2 : rest.length ≤ 14) (hd : rest.all isDigitChar = true) :
    matchE164 (c :: rest) = true := by
  simp [matchE164, h1, h9, hlen1, hlen2, hd]

/-! ## Theorems about mailer/utils/phone.js -/

/-- C8 (counterexample): `isValidE164` trims its argument before testing the
regex, so it accepts a string that is not digits-only: `" 12 "` contains
whitespace yet validates. -/
theorem isValidE164_counterexample :
    isValidE164 " 12 " = true ∧ (" 12 " : String).data.all isDigitChar = false := by
  decide

/-- C8 (amended): `isValidE164` returns true iff, after trimming surrounding
whitespace, the candidate consists of digits only, has length between 2 and 15
inclusive, and its first digit is non-zero. -/
theorem isValidE164_true_iff (s : String) :
    isValidE164 s = true ↔
      ((trimChars s.data).all isDigitChar = true ∧
        2 ≤ (trimChars s.data).length ∧ (trimChars s.data).length ≤ 15 ∧
        (trimChars s.data).head? ≠ some '0') := by
  unfold isValidE164
  generalize trimChars s.data = t
  cases t with
  | nil => simp [matchE164]
  | cons c rest =>
    simp only [matchE164, List.all_cons, List.length_cons, List.head?_cons,
      Bool.and_eq_true, decide_eq_true_eq, ne_eq, Option.some.injEq]
    constructor
    · rintro ⟨⟨⟨⟨h1, h9⟩, hl1⟩, hl14⟩, hall⟩
      have h0 : '0' ≤ c := le_trans (by decide) h1
      have hne : ¬ c = '0' := by
        rintro rfl
        exact absurd h1 (by decide)
      refine ⟨⟨?_, hall⟩, by omega, by omega, hne⟩
      simp [isDigitChar, h0, h9]
    · rintro ⟨⟨hdig, hall⟩, hl2, hl15, hne⟩
      simp only [isDigitChar, Bool.and_eq_true, decide_eq_true_eq] at hdig
      have h1 : '1' ≤ c := lt_of_le_of_ne hdig.1 (Ne.symm hne)
      exact ⟨⟨⟨⟨h1, hdig.2⟩, by omega⟩, by omega⟩, hall⟩

/-- C8 (witness for the amended theorem): applies the characterization at a
concrete accepted and shaped input. -/
theorem isValidE164_true_iff_witness :
    isValidE164 "5491122334455" = true :=
  (isValidE164_true_iff "5491122334455").mpr (by decide)

theorem startsWithChars_ensure549 (n : List Char) :
    startsWithChars (ensure549 n) ['5', '4', '9'] = true := by
  unfold ensure549
  split
  · assumption
  · simp [startsWithChars]

/-- C9: whatever `normalizePhone` produced, a non-null result of
`normalizeWhatsAppPhone` always satisfies `isValidE164` — both the Argentina
branch and the default branch gate their return value on the validity check. -/
theorem normalizeWhatsAppPhone_returns_valid (o : Option String) (r : String)
    (h : normalizeWhatsAppPhoneFrom o = some r) : isValidE164 r = true := by
  match o with
  | none => simp [normalizeWhatsAppPhoneFrom] at h
  | some normStr =>
    simp only [normalizeWhatsAppPhoneFrom] at h
    split at h
    · split at h
      · rename_i hv
        cases h
        exact hv
      · cases h
    · split at h
      · rename_i hv
        cases h
        exact hv
      · cases h

/-- C9 (witness): the validity invariant applied at a concrete input. -/
theorem normalizeWhatsAppPhone_returns_valid_witness :
    isValidE164 "5491122334455" = true ∧ True :=
  ⟨normalizeWhatsAppPhone_returns_valid (some "5491122334455") "5491122334455"
    (by decide), trivial⟩

/-- C10: a non-null Argentine result of `normalizeWhatsAppPhone` always
carries the mobile `'9'` marker: if it starts with `"54"` it starts with
`"549"`, because the Argentina branch forcibly inserts the marker and the
default branch never returns a `"54"`-led string. -/
theorem normalizeWhatsAppPhone_ar_mobile_marker (o : Option String) (r : String)
    (h : normalizeWhatsAppPhoneFrom o = some r)
    (h54 : strStartsWith r "54" = true) : strStartsWith r "549" = true := by
  match o with
  | none => simp [normalizeWhatsAppPhoneFrom] at h
  | some normStr =>
    simp only [normalizeWhatsAppPhoneFrom] at h
    split at h
    · split at h
      · cases h
        exact startsWithChars_ensure549 _
      · cases h
    · rename_i hb
      split at h
      · cases h
        exact absurd h54 hb
      · cases h

/-- C10 (witness): a `"54"`-led input without the marker comes back with it. -/
theorem normalizeWhatsAppPhone_ar_mobile_marker_witness :
    strStartsWith "5491122334455" "549" = true :=
  normalizeWhatsAppPhone_ar_mobile_marker (some "541122334455") "5491122334455"
    (by decide) (by decide)

/-- C3 (counterexample): the `'15'`-fragment removal of
`normalizeWhatsAppPhone` is gated on the canonical length exceeding 13, not on
it exceeding the E.164 maximum of 15: on the 14-digit canonical input
`"54111532100000"` (within the 15-digit bound, so the claim predicts no
removal, i.e. result `"549111532100000"`) the code removes the fragment and
returns `"5491132100000"`. -/
theorem normalizeWhatsAppPhone_removal_counterexample :
    ("54111532100000" : String).length = 14 ∧
    normalizeWhatsAppPhoneFrom (some "54111532100000") = some "5491132100000" ∧
    normalizeWhatsAppPhoneFrom (some "54111532100000") ≠ some "549111532100000" := by
  decide

/-- C3 (amended): the fragment removal triggers whenever the canonical form
keeps more than 13 digits (the code's threshold), not only above the 15-digit
E.164 maximum; in particular, a canonical `"54"` digit string of total length
16 (exceeding the 15-digit maximum) with an embedded `'15'` fragment after the
country code normalizes to a non-null form within the 15-digit bound, strictly
shorter than the input. -/
theorem normalizeWhatsAppPhone_removes_fragment (normStr : String)
    (hd : normStr.data.all isDigitChar = true)
    (h54 : strStartsWith normStr "54" = true)
    (hlen : normStr.data.length = 16)
    (hfrag : hasSubChars (normStr.data.drop 2) ['1', '5'] = true) :
    ∃ r : String, normalizeWhatsAppPhoneFrom (some normStr) = some r ∧
      r.data.length ≤ 15 ∧ r.data.length < normStr.data.length := by
  rw [hasSubChars, Option.isSome_iff_exists] at hfrag
  obtain ⟨idx, hidx⟩ := hfrag
  have hbound := findSubIdx_bound hidx
  rw [List.length_drop, hlen] at hbound
  simp only [List.length_cons, List.length_nil] at hbound
  obtain ⟨ab, hm, hab, habd⟩ :
      ∃ ab : List Char, arRemove15 normStr.data = '5' :: '4' :: ab ∧
        ab.length = 12 ∧ ab.all isDigitChar = true := by
    refine ⟨(normStr.data.drop 2).take idx ++ (normStr.data.drop 2).drop (idx + 2),
      ?_, ?_, ?_⟩
    · simp only [arRemove15, hidx]
      rw [if_pos (by omega)]
    · simp only [List.length_append, List.length_take, List.length_drop, hlen]
      omega
    · rw [List.all_eq_true]
      intro x hx
      refine List.all_eq_true.1 hd x ?_
      rcases List.mem_append.1 hx with hx | hx
      · exact List.drop_subset _ _ (List.take_subset _ _ hx)
      · exact List.drop_subset _ _ (List.drop_subset _ _ hx)
  have key : normalizeWhatsAppPhoneFrom (some normStr) =
      (if isValidE164 (String.mk (ensure549 (arRemove15 normStr.data)))
       then some (String.mk (ensure549 (arRemove15 normStr.data))) else none) := by
    simp only [normalizeWhatsAppPhoneFrom, h54, if_true]
  by_cases hs : startsWithChars (arRemove15 normStr.data) ['5', '4', '9'] = true
  · have he : ensure549 (arRemove15 normStr.data) = arRemove15 normStr.data := by
      unfold ensure549
      rw [if_pos hs]
    have hv : isValidE164 (String.mk (arRemove15 normStr.data)) = true := by
      unfold isValidE164
      show matchE164 (trimChars (arRemove15 normStr.data)) = true
      rw [hm, trimChars_eq_self_of_all_digits _ (by
        simp only [List.all_cons, Bool.and_eq_true]
        exact ⟨by decide, by decide, habd⟩)]
      refine matchE164_eq_true (by decide) (by decide) ?_ ?_ ?_
      · simp
      · rw [List.length_cons, hab]
        omega
      · simp only [List.all_cons, Bool.and_eq_true]
        exact ⟨by decide, habd⟩
    refine ⟨String.mk (arRemove15 normStr.data), ?_, ?_, ?_⟩
    · rw [key, he, hv, if_pos rfl]
    · show (arRemove15 normStr.data).length ≤ 15
      rw [hm, List.length_cons, List.length_cons, hab]
      omega
    · show (arRemove15 normStr.data).length < normStr.data.length
      rw [hm, hlen, List.length_cons, List.length_cons, hab]
      omega
  · have he : ensure549 (arRemove15 normStr.data) = '5' :: '4' :: '9' :: ab := by
      unfold ensure549
      rw [if_neg hs, hm]
      rfl
    have hv : isValidE164 (String.mk (ensure549 (arRemove15 normStr.data))) = true := by
      unfold isValidE164
      show matchE164 (trimChars (ensure549 (arRemove15 normStr.data))) = true
      rw [he, trimChars_eq_self_of_all_digits _ (by
        simp only [List.all_cons, Bool.and_eq_true]
        exact ⟨by decide, by decide, by decide, habd⟩)]
      refine matchE164_eq_true (by decide) (by decide) ?_ ?_ ?_
      · simp
      · rw [List.length_cons, List.length_cons, hab]
      · simp only [List.all_cons, Bool.and_eq_true]
        exact ⟨by decide, by decide, habd⟩
    refine ⟨String.mk (ensure549 (arRemove15 normStr.data)), ?_, ?_, ?_⟩
    · rw [key, hv, if_pos rfl]
    · show (ensure549 (arRemove15 normStr.data)).length ≤ 15
      rw [he, List.length_cons, List.length_cons, List.length_cons, hab]
    · show (ensure549 (arRemove15 normStr.data)).length < normStr.data.length
      rw [he, hlen, List.length_cons, List.length_cons, List.length_cons, hab]
      omega

/-- C3 (witness for the amended theorem): the 16-digit canonical input
`"5411153210000012"` has an embedded `'15'` fragment and normalizes within
the 15-digit bound. -/
theorem normalizeWhatsAppPhone_removes_fragment_witness :
    ∃ r : String, normalizeWhatsAppPhoneFrom (some "5411153210000012") = some r ∧
      r.data.length ≤ 15 ∧ r.data.length < ("5411153210000012" : String).data.length :=
  normalizeWhatsAppPhone_removes_fragment "5411153210000012"
    (by decide) (by decide) (by decide) (by decide)

/-! ## src/utils/retry.js -/

/-- The fields of a JavaScript error value read by `isRetryableError`:
`err?.response?.status`, `err?.code` and `err?.message`, each possibly
absent. -/
structure JsError where
  status : Option Nat
  code : Option String
  message : Option String

/-- The `retryable` set of network error codes of `isRetryableError`
(src/utils/retry.js). -/
def retryableCodes : List String :=
  ["ECONNRESET", "ETIMEDOUT", "EHOSTUNREACH", "ENETUNREACH", "EAI_AGAIN",
    "ECONNABORTED", "ENOTFOUND"]

/-- The function `isRetryableError` (src/utils/retry.js) with the source's early-return
chain: the explicit retryable HTTP statuses, then the 5xx range (comparisons
against an absent status are false, as in JavaScript), then the network-code
set, then a case-insensitive `"timeout"` substring of the message. -/
def isRetryableError (e : JsError) : Bool :=
  if e.status == some 429 || e.status == some 408 || e.status == some 425 then true
  else if (match e.status with
           | some s => decide (500 ≤ s) && decide (s ≤ 599)
           | none => false) then true
  else if (match e.code with
           | some c => retryableCodes.contains c
           | none => false) then true
  else if (match e.message with
           | some m => hasSubChars (m.data.map Char.toLower)
               ['t', 'i', 'm', 'e', 'o', 'u', 't']
           | none => false) then true
  else false

/-- The specification's transport-transient condition, written independently
of the early-return control flow: HTTP 429/408/425/5xx, or one of the
connection-reset/timeout/DNS-temporary-failure network codes, or a message
containing "timeout" case-insensitively. -/
def specTransient (e : JsError) : Prop :=
  (∃ s, e.status = some s ∧ (s = 429 ∨ s = 408 ∨ s = 425 ∨ (500 ≤ s ∧ s ≤ 599))) ∨
  (∃ c, e.code = some c ∧ c ∈ retryableCodes) ∨
  (∃ m, e.message = some m ∧
    hasSubChars (m.data.map Char.toLower) ['t', 'i', 'm', 'e', 'o', 'u', 't'] = true)

/-- C4: `isRetryableError` classifies an error as transient exactly under the
spec's transport-transient condition; in particular any other 4xx status with
no retryable code and no "timeout" message is classified permanent. -/
theorem isRetryableError_iff (e : JsError) :
    (isRetryableError e = true ↔ specTransient e) ∧
    (∀ s : Nat, e.status = some s → 400 ≤ s → s < 500 →
      s ≠ 429 → s ≠ 408 → s ≠ 425 →
      (∀ c, e.code = some c → c ∉ retryableCodes) →
      (∀ m, e.message = some m →
        hasSubChars (m.data.map Char.toLower) ['t', 'i', 'm', 'e', 'o', 'u', 't'] = false) →
      isRetryableError e = false) := by
  obtain ⟨st, cd, msg⟩ := e
  have hiff : isRetryableError ⟨st, cd, msg⟩ = true ↔ specTransient ⟨st, cd, msg⟩ := by
    simp only [isRetryableError]
    split_ifs with h1 h2 h3 h4
    · simp only [Bool.or_eq_true, beq_iff_eq] at h1
      simp only [specTransient, true_iff]
      left
      rcases h1 with (h | h) | h
      · exact ⟨429, h, Or.inl rfl⟩
      · exact ⟨408, h, Or.inr (Or.inl rfl)⟩
      · exact ⟨425, h, Or.inr (Or.inr (Or.inl rfl))⟩
    · simp only [specTransient, true_iff]
      left
      cases st with
      | none => simp at h2
      | some s =>
        simp only [Bool.and_eq_true, decide_eq_true_eq] at h2
        exact ⟨s, rfl, Or.inr (Or.inr (Or.inr h2))⟩
    · simp only [specTransient, true_iff]
      right; left
      cases cd with
      | none => simp at h3
      | some c =>
        rw [List.elem_iff] at h3
        exact ⟨c, rfl, h3⟩
    · simp only [specTransient, true_iff]
      right; right
      cases msg with
      | none => simp at h4
      | some m => exact ⟨m, rfl, h4⟩
    · simp only [specTransient, false_iff]
      rintro (⟨s, hs, hd⟩ | ⟨c, hc, hmem⟩ | ⟨m, hm, hsub⟩)
      · subst hs
        rcases hd with rfl | rfl | rfl | ⟨hlo, hhi⟩
        · exact h1 (by simp)
        · exact h1 (by simp)
        · exact h1 (by simp)
        · exact h2 (by simp [hlo, hhi])
      · subst hc
        exact h3 (List.elem_iff.2 hmem)
      · subst hm
        exact h4 hsub
  refine ⟨hiff, ?_⟩
  intro s hs h400 h500 h429 h408 h425 hcode hmsg
  have hns : ¬ specTransient ⟨st, cd, msg⟩ := by
    rintro (⟨s', hs', hd⟩ | ⟨c, hc, hmem⟩ | ⟨m, hm, hsub⟩)
    · rw [hs] at hs'
      injection hs' with h'
      subst h'
      rcases hd with rfl | rfl | rfl | ⟨hlo, _⟩
      · exact h429 rfl
      · exact h408 rfl
      · exact h425 rfl
      · omega
    · exact hcode c hc hmem
    · rw [hmsg m hm] at hsub
      cases hsub
  cases hb : isRetryableError ⟨st, cd, msg⟩
  · rfl
  · exact absurd (hiff.1 hb) hns

/-- C4 (witness): a 404 with no code and no message is permanent. -/
theorem isRetryableError_iff_witness :
    isRetryableError ⟨some 404, none, none⟩ = false :=
  (isRetryableError_iff ⟨some 404, none, none⟩).2 404 rfl (by decide) (by decide)
    (by decide) (by decide) (by decide)
    (fun c hc => nomatch hc) (fun m hm => nomatch hm)

/-! ## mailer/queue.js -/

/-- The payload of a WhatsApp delivery job, as passed to `enqueueWhatsApp`. -/
structure WaPayload where
  «to» : String
  templateName : String
  languageCode : String
  bodyParams : List String
  headerImageUrl : Option String
  campaignId : String

/-- The deterministic job id of `enqueueWhatsApp` (mailer/queue.js):
`wa:${campaignId}:${to}:${templateName}`. -/
def waJobId (data : WaPayload) : String :=
  "wa:" ++ data.campaignId ++ ":" ++ data.«to» ++ ":" ++ data.templateName

/-- Modelled from the spec: the BullMQ WhatsApp queue (external dependency)
addressed by `whatsappQueue.add` with an explicit `jobId` performs
at-most-once insertion — "a WhatsApp job's deterministic key guarantees
at-most-once enqueueing". The queue state is its list of (jobId, payload)
entries; adding under an id already present creates no new job. -/
def queueAdd (q : List (String × WaPayload)) (jobId : String) (data : WaPayload) :
    List (String × WaPayload) :=
  if q.any (fun j => j.1 == jobId) then q else q ++ [(jobId, data)]

/-- The function `enqueueWhatsApp` (mailer/queue.js): computes the deterministic job id
from the payload and adds to the WhatsApp queue under that id. -/
def enqueueWhatsApp (q : List (String × WaPayload)) (data : WaPayload) :
    List (String × WaPayload) :=
  queueAdd q (waJobId data) data

/-- Number of jobs in the queue carrying a given job id. -/
def countJobsWithId (q : List (String × WaPayload)) (jobId : String) : Nat :=
  (q.filter (fun j => j.1 == jobId)).length

/-- C5: payloads agreeing on campaignId, recipient and templateName map to the
same deterministic job id; re-submitting such a payload is a no-op on the
queue, and starting from a queue with no job under that id, two submissions
leave exactly one job under it. -/
theorem enqueueWhatsApp_idempotent (q : List (String × WaPayload))
    (d d' : WaPayload) (hc : d'.campaignId = d.campaignId) (ht : d'.«to» = d.«to»)
    (htn : d'.templateName = d.templateName) :
    waJobId d' = waJobId d ∧
    enqueueWhatsApp (enqueueWhatsApp q d) d' = enqueueWhatsApp q d ∧
    (countJobsWithId q (waJobId d) = 0 →
      countJobsWithId (enqueueWhatsApp (enqueueWhatsApp q d) d') (waJobId d) = 1) := by
  have hkey : waJobId d' = waJobId d := by
    simp [waJobId, hc, ht, htn]
  have hmem : (enqueueWhatsApp q d).any (fun j => j.1 == waJobId d) = true := by
    unfold enqueueWhatsApp queueAdd
    split
    · rename_i h
      exact h
    · simp [List.any_append]
  have hnoop : enqueueWhatsApp (enqueueWhatsApp q d) d' = enqueueWhatsApp q d := by
    show queueAdd (enqueueWhatsApp q d) (waJobId d') d' = enqueueWhatsApp q d
    rw [hkey]
    unfold queueAdd
    rw [if_pos hmem]
  refine ⟨hkey, hnoop, fun h0 => ?_⟩
  rw [hnoop]
  unfold countJobsWithId at h0
  rw [List.length_eq_zero, List.filter_eq_nil_iff] at h0
  have hnone : q.any (fun j => j.1 == waJobId d) = false := by
    rw [List.any_eq_false]
    intro j hj
    simpa using h0 j hj
  show countJobsWithId (queueAdd q (waJobId d) d) (waJobId d) = 1
  unfold queueAdd
  rw [if_neg (by rw [hnone]; exact Bool.false_ne_true)]
  unfold countJobsWithId
  rw [List.filter_append]
  rw [List.filter_eq_nil_iff.2 fun j hj => by simpa using h0 j hj]
  simp

/-- The concrete payload used by the idempotency witness. -/
def sampleWaPayload : WaPayload :=
  ⟨"5491122334455", "promo_ford_mes", "es_AR", ["Cliente", "Fiesta"], none, "cmp1"⟩

/-- C5 (witness): the idempotency theorem applied on the empty queue with the
same payload submitted twice. -/
theorem enqueueWhatsApp_idempotent_witness :
    waJobId sampleWaPayload = waJobId sampleWaPayload ∧
    enqueueWhatsApp (enqueueWhatsApp [] sampleWaPayload) sampleWaPayload =
      enqueueWhatsApp [] sampleWaPayload ∧
    (countJobsWithId [] (waJobId sampleWaPayload) = 0 →
      countJobsWithId
        (enqueueWhatsApp (enqueueWhatsApp [] sampleWaPayload) sampleWaPayload)
        (waJobId sampleWaPayload) = 1) :=
  enqueueWhatsApp_idempotent [] sampleWaPayload sampleWaPayload rfl rfl rfl

/-! ## src/controllers/campaign.controller.js — the email pass of
`sendCampaignCore` -/

/-- The regex character class `[^\s@]` of `EMAIL_RE`. -/
def isAtomChar (c : Char) : Bool := !(isJsWs c) && c != '@'

/-- Splits a char list at the first occurrence of a character, `none` when the
character does not occur. -/
def splitAtFirst (c : Char) : List Char → Option (List Char × List Char)
  | [] => none
  | x :: t =>
    if x == c then some ([], t)
    else (splitAtFirst c t).map (fun p => (x :: p.1, p.2))

/-- Whether a char list contains a `'.'` strictly before its last element. -/
def dotBeforeLast : List Char → Bool
  | [] => false
  | [_] => false
  | c :: rest => c == '.' || dotBeforeLast rest

/-- The regex `EMAIL_RE = /^[^\s@]+@[^\s@]+\.[^\s@]+$/`
(src/controllers/campaign.controller.js) as an executable matcher: since
`[^\s@]` excludes `'@'`, the regex matches exactly the strings that split as
`a ++ "@" ++ b` with `a`, `b` non-empty runs of non-whitespace non-`'@'`
characters and `b` containing a `'.'` that is neither its first nor its last
character. -/
def emailRe (s : String) : Bool :=
  match splitAtFirst '@' s.data with
  | none => false
  | some (a, b) =>
    !(a.isEmpty) && a.all isAtomChar && !(b.isEmpty) && b.all isAtomChar &&
      (match b with
       | [] => false
       | _ :: t => dotBeforeLast t)

/-- A raw contact as delivered by the segment service: the fields read by the
email pass of `sendCampaignCore`. -/
structure Cliente where
  email : Option String
  nombre : Option String
  vehiculo : Option String

/-- An accepted email contact, as pushed onto `emailContacts`. -/
structure EmailContact where
  email : String
  nombre : Option String
  vehiculo : Option String

/-- Accumulator of the email pass over the raw contact list. -/
structure EmailAccum where
  seenEmails : List String
  emailContacts : List EmailContact
  emailInvalidos : Nat
  emailDuplicados : Nat

/-- JS `String(c.email || '')`: an absent email collapses to the empty string. -/
def jsOrEmptyStr (o : Option String) : String :=
  match o with
  | some s => s
  | none => ""

/-- One iteration of the email branch of the contact loop of
`sendCampaignCore` (src/controllers/campaign.controller.js): trims the raw
email, rejects empty or non-`EMAIL_RE` values, counts a repeat of an already
seen trimmed address as duplicate, and otherwise accepts the contact. A
`none` entry models a falsy element of `clientes`, which the loop skips. -/
def processEmailContact (acc : EmailAccum) (c : Option Cliente) : EmailAccum :=
  match c with
  | none => acc
  | some c =>
    let email := String.mk (trimChars (jsOrEmptyStr c.email).data)
    if email.isEmpty then { acc with emailInvalidos := acc.emailInvalidos + 1 }
    else if !(emailRe email) then
      { acc with emailInvalidos := acc.emailInvalidos + 1 }
    else if acc.seenEmails.contains email then
      { acc with emailDuplicados := acc.emailDuplicados + 1 }
    else
      { acc with seenEmails := acc.seenEmails ++ [email],
                 emailContacts := acc.emailContacts ++ [⟨email, c.nombre, c.vehiculo⟩] }

/-- The email pass of `sendCampaignCore` over the whole contact list. -/
def processEmailContacts (clientes : List (Option Cliente)) : EmailAccum :=
  clientes.foldl processEmailContact ⟨[], [], 0, 0⟩

/-- C1 (counterexample): the deduplication key of `sendCampaignCore` is the
trimmed email **without lowercasing**, so the case variants `"A@b.com"` and
`"a@b.com"` — the same canonical lowercased address — are both accepted (two
jobs) and neither is counted as a duplicate. -/
theorem email_dedup_counterexample :
    (processEmailContacts [some ⟨some "A@b.com", none, none⟩,
      some ⟨some "a@b.com", none, none⟩]).emailContacts.length = 2 ∧
    (processEmailContacts [some ⟨some "A@b.com", none, none⟩,
      some ⟨some "a@b.com", none, none⟩]).emailDuplicados = 0 := by
  decide

/-- C1 (amended): deduplication is performed on the trimmed address,
case-sensitively: for every non-empty contact list in which each entry's raw
email trims to the same `EMAIL_RE`-shaped address `e` (e.g. whitespace
variants of one address), exactly one email contact is accepted and all the
others are counted as duplicates, with no invalid entries. -/
theorem sendCampaignCore_email_dedup (e : String) (he : emailRe e = true)
    (clientes : List (Option Cliente)) (hne : clientes ≠ [])
    (hall : ∀ c ∈ clientes, ∃ cl : Cliente, c = some cl ∧
      String.mk (trimChars (jsOrEmptyStr cl.email).data) = e) :
    (processEmailContacts clientes).emailContacts.length = 1 ∧
    (processEmailContacts clientes).emailDuplicados = clientes.length - 1 ∧
    (processEmailContacts clientes).emailInvalidos = 0 := by
  have hee : e.isEmpty = false := by
    rw [Bool.eq_false_iff]
    intro hemp
    rw [String.isEmpty_iff] at hemp
    subst hemp
    exact absurd he (by decide)
  have hstep : ∀ (acc : EmailAccum) (cl : Cliente),
      String.mk (trimChars (jsOrEmptyStr cl.email).data) = e →
      processEmailContact acc (some cl) =
        (if acc.seenEmails.contains e then
          { acc with emailDuplicados := acc.emailDuplicados + 1 }
         else
          { acc with seenEmails := acc.seenEmails ++ [e],
                     emailContacts :=
                       acc.emailContacts ++ [⟨e, cl.nombre, cl.vehiculo⟩] }) := by
    intro acc cl hcl
    simp only [processEmailContact, hcl]
    rw [if_neg (by rw [hee]; exact Bool.false_ne_true),
      if_neg (by rw [he]; simp)]
  have hdup : ∀ (l : List (Option Cliente)) (acc : EmailAccum),
      (∀ c ∈ l, ∃ cl : Cliente, c = some cl ∧
        String.mk (trimChars (jsOrEmptyStr cl.email).data) = e) →
      acc.seenEmails.contains e = true →
      l.foldl processEmailContact acc =
        { acc with emailDuplicados := acc.emailDuplicados + l.length } := by
    intro l
    induction l with
    | nil =>
      intro acc _ _
      show acc = _
      cases acc
      rfl
    | cons c t ih =>
      intro acc hall' hseen
      obtain ⟨cl, rfl, hcl⟩ := hall' c (List.mem_cons_self c t)
      show t.foldl processEmailContact (processEmailContact acc (some cl)) = _
      rw [hstep acc cl hcl, if_pos hseen,
        ih _ (fun c hc => hall' c (List.mem_cons_of_mem _ hc)) (by simpa using hseen)]
      simp only [EmailAccum.mk.injEq, List.length_cons, true_and]
      omega
  cases clientes with
  | nil => exact absurd rfl hne
  | cons c0 rest =>
    obtain ⟨cl0, rfl, hcl0⟩ := hall c0 (List.mem_cons_self c0 rest)
    unfold processEmailContacts
    rw [List.foldl_cons, hstep _ cl0 hcl0, if_neg (fun h => nomatch h),
      hdup rest _ (fun c hc => hall c (List.mem_cons_of_mem _ hc)) (by simp)]
    simp

/-- C1 (witness for the amended theorem): a whitespace variant and the plain
address dedupe to a single accepted contact. -/
theorem sendCampaignCore_email_dedup_witness :
    (processEmailContacts [some ⟨some " x@y.com ", none, none⟩,
      some ⟨some "x@y.com", none, none⟩]).emailContacts.length = 1 ∧
    (processEmailContacts [some ⟨some " x@y.com ", none, none⟩,
      some ⟨some "x@y.com", none, none⟩]).emailDuplicados =
      ([some ⟨some " x@y.com ", none, none⟩,
        some ⟨some "x@y.com", none, none⟩] : List (Option Cliente)).length - 1 ∧
    (processEmailContacts [some ⟨some " x@y.com ", none, none⟩,
      some ⟨some "x@y.com", none, none⟩]).emailInvalidos = 0 :=
  sendCampaignCore_email_dedup "x@y.com" (by decide)
    [some ⟨some " x@y.com ", none, none⟩, some ⟨some "x@y.com", none, none⟩]
    (List.cons_ne_nil _ _)
    (by
      intro c hc
      rcases List.mem_cons.1 hc with rfl | hc
      · exact ⟨_, rfl, by decide⟩
      · rcases List.mem_cons.1 hc with rfl | hc
        · exact ⟨_, rfl, by decide⟩
        · cases hc)

/-! ## mailer/campaign/core.js and mailer/campaign/whatsapp.js — the
campaign runners

The per-contact render/enqueue calls are I/O; their effect is modelled by an
oracle `outcome : Nat → Option String` giving, for the contact at 1-based
position `i`, either success (`none`) or a thrown exception (`some msg`). -/

/-- Counters of one email-campaign run (`runFordCampaign`,
mailer/campaign/core.js): `i`, `encolados`, `erroresEncolado`. -/
structure EmailRunState where
  procesados : Nat
  encolados : Nat
  erroresEncolado : Nat

/-- One iteration of the per-contact loop of `runFordCampaign`: the whole
render+enqueue body is inside try/catch, so a throw increments the error
counter and the loop continues with the next contact. -/
def emailLoopStep (outcome : Nat → Option String) (s : EmailRunState) :
    EmailRunState :=
  match outcome (s.procesados + 1) with
  | none => ⟨s.procesados + 1, s.encolados + 1, s.erroresEncolado⟩
  | some _ => ⟨s.procesados + 1, s.encolados, s.erroresEncolado + 1⟩

/-- The contact loop of `runFordCampaign` over the contact list. -/
def runFordCampaignLoop (outcome : Nat → Option String)
    (contacts : List EmailContact) : EmailRunState :=
  contacts.foldl (fun s _ => emailLoopStep outcome s) ⟨0, 0, 0⟩

/-- A WhatsApp contact as consumed by `runFordWhatsAppCampaign`. -/
structure WaContact where
  telefonoE164 : Option String
  nombre : Option String
  vehiculo : Option String

/-- Counters of one WhatsApp-campaign run: `i`, `skipped`, `encolados`,
`erroresEncolado`. -/
structure WaRunState where
  procesados : Nat
  skipped : Nat
  encolados : Nat
  erroresEncolado : Nat

/-- JavaScript truthiness of an optional string field: absent or `""` is
falsy. -/
def jsTruthy (o : Option String) : Bool :=
  match o with
  | none => false
  | some s => !(s.isEmpty)

/-- JS `x || d` for a possibly absent string `x` with default `d`. -/
def jsOrDefault (o : Option String) (d : String) : String :=
  match o with
  | none => d
  | some s => if s.isEmpty then d else s

/-- One iteration of the per-contact loop of `runFordWhatsAppCampaign`
(mailer/campaign/whatsapp.js): skip when `telefonoE164` is falsy, skip when
the body-params count does not match the expected count, otherwise attempt
the enqueue inside try/catch (an exception increments `erroresEncolado` and
the loop continues). -/
def waLoopStep (expectedBodyParams : Nat) (outcome : Nat → Option String)
    (s : WaRunState) (c : WaContact) : WaRunState :=
  if !(jsTruthy c.telefonoE164) then
    ⟨s.procesados + 1, s.skipped + 1, s.encolados, s.erroresEncolado⟩
  else
    let bodyParams := [jsOrDefault c.nombre "Cliente",
      jsOrDefault c.vehiculo "modelos seleccionados"]
    if bodyParams.length ≠ expectedBodyParams then
      ⟨s.procesados + 1, s.skipped + 1, s.encolados, s.erroresEncolado⟩
    else
      match outcome (s.procesados + 1) with
      | none => ⟨s.procesados + 1, s.skipped, s.encolados + 1, s.erroresEncolado⟩
      | some _ => ⟨s.procesados + 1, s.skipped, s.encolados, s.erroresEncolado + 1⟩

/-- The contact loop of `runFordWhatsAppCampaign` over the contact list. -/
def runWhatsAppLoop (expectedBodyParams : Nat) (outcome : Nat → Option String)
    (contacts : List WaContact) : WaRunState :=
  contacts.foldl (waLoopStep expectedBodyParams outcome) ⟨0, 0, 0, 0⟩

/-- Number of success outcomes among the positions `start+1 .. start+n`. -/
def okCount (outcome : Nat → Option String) : Nat → Nat → Nat
  | _, 0 => 0
  | start, n + 1 =>
    (if (outcome (start + 1)).isNone then 1 else 0) + okCount outcome (start + 1) n

theorem okCount_le (outcome : Nat → Option String) (start n : Nat) :
    okCount outcome start n ≤ n := by
  induction n generalizing start with
  | zero => simp [okCount]
  | succ n ih =>
    have := ih (start + 1)
    unfold okCount
    split <;> omega

theorem emailLoop_fold (outcome : Nat → Option String)
    (contacts : List EmailContact) (s : EmailRunState) :
    contacts.foldl (fun t _ => emailLoopStep outcome t) s =
      ⟨s.procesados + contacts.length,
       s.encolados + okCount outcome s.procesados contacts.length,
       s.erroresEncolado +
         (contacts.length - okCount outcome s.procesados contacts.length)⟩ := by
  induction contacts generalizing s with
  | nil =>
    show s = _
    cases s
    simp [okCount]
  | cons c t ih =>
    show t.foldl _ (emailLoopStep outcome s) = _
    rw [ih]
    have hle := okCount_le outcome (s.procesados + 1) t.length
    cases h : outcome (s.procesados + 1) with
    | none =>
      have hstep : emailLoopStep outcome s =
          ⟨s.procesados + 1, s.encolados + 1, s.erroresEncolado⟩ := by
        unfold emailLoopStep
        rw [h]
      have hok : okCount outcome s.procesados (t.length + 1) =
          1 + okCount outcome (s.procesados + 1) t.length := by
        show (if (outcome (s.procesados + 1)).isNone then 1 else 0) +
            okCount outcome (s.procesados + 1) t.length = _
        rw [h]
        simp
      rw [hstep]
      simp only [List.length_cons, EmailRunState.mk.injEq, hok]
      refine ⟨by omega, by omega, by omega⟩
    | some msg =>
      have hstep : emailLoopStep outcome s =
          ⟨s.procesados + 1, s.encolados, s.erroresEncolado + 1⟩ := by
        unfold emailLoopStep
        rw [h]
      have hok : okCount outcome s.procesados (t.length + 1) =
          0 + okCount outcome (s.procesados + 1) t.length := by
        show (if (outcome (s.procesados + 1)).isNone then 1 else 0) +
            okCount outcome (s.procesados + 1) t.length = _
        rw [h]
        simp
      rw [hstep]
      simp only [List.length_cons, EmailRunState.mk.injEq, hok]
      refine ⟨by omega, by omega, by omega⟩

theorem waLoop_fold_counts (expectedBodyParams : Nat)
    (outcome : Nat → Option String) (contacts : List WaContact)
    (s : WaRunState) :
    (contacts.foldl (waLoopStep expectedBodyParams outcome) s).procesados =
      s.procesados + contacts.length ∧
    (contacts.foldl (waLoopStep expectedBodyParams outcome) s).skipped +
      (contacts.foldl (waLoopStep expectedBodyParams outcome) s).encolados +
      (contacts.foldl (waLoopStep expectedBodyParams outcome) s).erroresEncolado =
      s.skipped + s.encolados + s.erroresEncolado + contacts.length := by
  induction contacts generalizing s with
  | nil => exact ⟨rfl, rfl⟩
  | cons c t ih =>
    rw [List.foldl_cons]
    obtain ⟨ih1, ih2⟩ := ih (waLoopStep expectedBodyParams outcome s c)
    rw [ih1, ih2]
    have hone : (waLoopStep expectedBodyParams outcome s c).procesados =
        s.procesados + 1 ∧
        (waLoopStep expectedBodyParams outcome s c).skipped +
          (waLoopStep expectedBodyParams outcome s c).encolados +
          (waLoopStep expectedBodyParams outcome s c).erroresEncolado =
          s.skipped + s.encolados + s.erroresEncolado + 1 := by
      simp only [waLoopStep]
      split_ifs with h1 h2
      · exact ⟨rfl, by dsimp only; omega⟩
      · exact ⟨rfl, by dsimp only; omega⟩
      · cases outcome (s.procesados + 1) <;>
          exact ⟨rfl, by dsimp only; omega⟩
    obtain ⟨ho1, ho2⟩ := hone
    rw [ho1, ho2]
    simp only [List.length_cons]
    exact ⟨by omega, by omega⟩

/-- C6: forward progress of both campaign runners under per-contact
exceptions. Whatever the render/enqueue outcomes — including an exception at
any contact `k` — `runFordCampaign` processes every contact, enqueueing one
email per success position and counting one error per failure position; and
`runFordWhatsAppCampaign` processes every contact, each contributing exactly
one of skipped/enqueued/error. Both loops are total functions of their
inputs, so the runs always resolve. -/
theorem campaign_runners_forward_progress (outcome outcomeW : Nat → Option String)
    (contacts : List EmailContact) (expectedBodyParams : Nat)
    (waContacts : List WaContact) :
    (runFordCampaignLoop outcome contacts).procesados = contacts.length ∧
    (runFordCampaignLoop outcome contacts).encolados =
      okCount outcome 0 contacts.length ∧
    (runFordCampaignLoop outcome contacts).erroresEncolado =
      contacts.length - okCount outcome 0 contacts.length ∧
    (runWhatsAppLoop expectedBodyParams outcomeW waContacts).procesados =
      waContacts.length ∧
    (runWhatsAppLoop expectedBodyParams outcomeW waContacts).skipped +
      (runWhatsAppLoop expectedBodyParams outcomeW waContacts).encolados +
      (runWhatsAppLoop expectedBodyParams outcomeW waContacts).erroresEncolado =
      waContacts.length := by
  obtain ⟨h1, h2⟩ := waLoop_fold_counts expectedBodyParams outcomeW waContacts ⟨0, 0, 0, 0⟩
  refine ⟨?_, ?_, ?_, by simpa using h1, by simpa using h2⟩ <;>
    rw [runFordCampaignLoop, emailLoop_fold] <;> dsimp only <;> omega

/-! ## End of run: counter persistence (mailer/campaign/whatsapp.js) -/

/-- The WhatsApp counters persisted on the Campaign document
(`campaign.metrics.whatsapp`; the `enviados`/`fallidos` fields are not
touched by the runner and are omitted). -/
structure WaMetrics where
  encolados : Nat
  omitidos : Nat

/-- The slice of the Campaign document touched by `runFordWhatsAppCampaign`
after its loop: `metrics` may be absent and is then initialised to zeros. -/
structure CampaignDoc where
  metricsWhatsApp : Option WaMetrics

/-- The function `runFordWhatsAppCampaign` (mailer/campaign/whatsapp.js) end-to-end: runs
the enqueue loop, then — when a campaign document is present — adds the
accumulated `encolados`/`skipped` counters onto its metrics (initialising
them when absent) and awaits `campaign.save()`. The save is **not** inside
any try/catch in the source, so its failure (modelled by `saveResult`)
rejects the whole run; on success the run resolves with the final loop
counters and the metrics as persisted. -/
def runFordWhatsAppCampaign (expectedBodyParams : Nat)
    (outcome : Nat → Option String) (campaign : Option CampaignDoc)
    (saveResult : Except String Unit) (contacts : List WaContact) :
    Except String (WaRunState × Option WaMetrics) :=
  let s := runWhatsAppLoop expectedBodyParams outcome contacts
  match campaign with
  | some cdoc =>
    let m0 := match cdoc.metricsWhatsApp with
      | some m => m
      | none => ⟨0, 0⟩
    let m1 : WaMetrics := ⟨m0.encolados + s.encolados, m0.omitidos + s.skipped⟩
    match saveResult with
    | .ok _ => .ok (s, some m1)
    | .error e => .error e
  | none => .ok (s, none)

/-- C2 (counterexample): a failing counter save makes the WhatsApp dispatch
run **reject** instead of resolving — `campaign.save()` is awaited outside
any try/catch, contradicting the claimed best-effort persistence. -/
theorem counter_persistence_counterexample :
    runFordWhatsAppCampaign 2 (fun _ => none) (some ⟨some ⟨0, 0⟩⟩)
      (.error "db down") [⟨some "5491122334455", some "Ana", none⟩] =
      .error "db down" := rfl

/-- C2 (amended): only the WhatsApp runner persists the accumulated
queued/skipped counters onto the Campaign, additively on top of the existing
metrics; the save is awaited outside any try/catch, so a save failure rejects
the dispatch run, while on save success the run resolves with the counters
persisted. (The email runner `runFordCampaign` persists no counters at all —
see `runFordCampaignLoop`, whose state carries only the in-memory counters.) -/
theorem whatsapp_counter_persistence (expectedBodyParams : Nat)
    (outcome : Nat → Option String) (cdoc : CampaignDoc)
    (contacts : List WaContact) :
    (∀ msg, runFordWhatsAppCampaign expectedBodyParams outcome (some cdoc)
      (.error msg) contacts = .error msg) ∧
    runFordWhatsAppCampaign expectedBodyParams outcome (some cdoc) (.ok ())
      contacts =
      .ok (runWhatsAppLoop expectedBodyParams outcome contacts,
        some ⟨(match cdoc.metricsWhatsApp with
                | some m => m
                | none => ⟨0, 0⟩).encolados +
            (runWhatsAppLoop expectedBodyParams outcome contacts).encolados,
          (match cdoc.metricsWhatsApp with
            | some m => m
            | none => ⟨0, 0⟩).omitidos +
            (runWhatsAppLoop expectedBodyParams outcome contacts).skipped⟩) :=
  ⟨fun _ => rfl, rfl⟩

/-! ## mailer/utils/cloudinary.js -/

/-- JS `Array.prototype.join(sep)` on strings. -/
def joinWith (sep : String) : List String → String
  | [] => ""
  | [x] => x
  | x :: xs => x ++ sep ++ joinWith sep xs

/-- JS `String.prototype.split(sep)` for a one-character separator (empty parts
kept, as in JavaScript). -/
def splitOnChar (sep : Char) : List Char → List (List Char)
  | [] => [[]]
  | c :: t =>
    let r := splitOnChar sep t
    if c == sep then [] :: r
    else
      match r with
      | [] => [[c]]
      | h :: t2 => (c :: h) :: t2

/-- JS `String.prototype.replace` with a plain-string pattern: replaces the
first occurrence only. -/
def replaceFirst (s pat repl : String) : String :=
  match findSubIdx s.data pat.data with
  | some i =>
    String.mk (s.data.take i ++ repl.data ++ s.data.drop (i + pat.data.length))
  | none => s

/-- The function `isCloudinaryUrl` (mailer/utils/cloudinary.js). -/
def isCloudinaryUrl (url : String) : Bool :=
  !(url.isEmpty) && hasSubChars url.data ("res.cloudinary.com" : String).data

/-- The function `enforceHttps` (mailer/utils/cloudinary.js): force HTTPS on a URL; a
non-string or empty value is returned as is (here: the empty string). -/
def enforceHttps (url : String) : String :=
  if url.isEmpty then url
  else if strStartsWith url "https://" then url
  else if strStartsWith url "http://" then replaceFirst url "http://" "https://"
  else if !(strStartsWith url "http://") && !(strStartsWith url "https://") then
    "https://" ++ url
  else url

/-- The function `validateHttps` (mailer/utils/cloudinary.js); the `Except` error models
the exception thrown for explicitly-HTTP URLs, which the caller catches. -/
def validateHttps (url : String) : Except String Bool :=
  if url.isEmpty then .ok false
  else if strStartsWith url "/" || strStartsWith url "./" then .ok true
  else if !(strStartsWith url "http://") && !(strStartsWith url "https://") then
    .ok false
  else if strStartsWith url "http://" then
    .error ("URL insegura detectada (HTTP): " ++ url ++
      ". Se requiere HTTPS para emails.")
  else .ok (strStartsWith url "https://")

/-- The fields of the WHATWG `URL` object read by `parseCloudinaryUrl`. -/
structure UrlObj where
  protocol : String
  host : String
  pathname : String

/-- The components returned by `parseCloudinaryUrl`. -/
structure CloudinaryParts where
  base : String
  transforms : Option String
  version : String
  imagePath : String

/-- The regex `/^v\d+$/`: a Cloudinary version path segment. -/
def isVersionPart (p : List Char) : Bool :=
  match p with
  | 'v' :: rest => !(rest.isEmpty) && rest.all isDigitChar
  | _ => false

/-- The function `parseCloudinaryUrl` (mailer/utils/cloudinary.js), parametrized by the
runtime `new URL` constructor (`parseUrl`; `none` models a thrown parse
error, which the source catches and turns into `null`). -/
def parseCloudinaryUrl (parseUrl : String → Option UrlObj) (url : String) :
    Option CloudinaryParts :=
  if !(isCloudinaryUrl url) then none
  else
    match parseUrl url with
    | none => none
    | some urlObj =>
      let pathParts := (splitOnChar '/' urlObj.pathname.data).filter
        (fun p => !(p.isEmpty))
      let imageIdx :=
        List.findIdx? (fun p => p == ['i', 'm', 'a', 'g', 'e']) pathParts
      let uploadIdx :=
        List.findIdx? (fun p => p == ['u', 'p', 'l', 'o', 'a', 'd']) pathParts
      match imageIdx, uploadIdx with
      | some ii, some ui =>
        if ui ≠ ii + 1 then none
        else
          let cloudName := String.mk ((pathParts.get? 0).getD [])
          let base := urlObj.protocol ++ "//" ++ urlObj.host ++ "/" ++ cloudName
          let afterUpload := pathParts.drop (ui + 1)
          match List.findIdx? isVersionPart afterUpload with
          | none => none
          | some vi =>
            let version := String.mk ((afterUpload.get? vi).getD [])
            let imagePath :=
              joinWith "/" ((afterUpload.drop (vi + 1)).map String.mk)
            let transforms := (afterUpload.take vi).map String.mk
            some ⟨base,
              if transforms.length > 0 then some (joinWith "," transforms)
              else none,
              version, imagePath⟩
      | _, _ => none

/-- The function `buildCloudinaryUrl` (mailer/utils/cloudinary.js): the `/`-join of
`[base, 'image', 'upload', transforms?, version, imagePath]`. -/
def buildCloudinaryUrl (p : CloudinaryParts) : String :=
  joinWith "/" ([p.base, "image", "upload"] ++
    (match p.transforms with
     | some t => [t]
     | none => []) ++ [p.version, p.imagePath])

/-- The options of `transformCloudinaryUrlForEmail`; `none` in
`format`/`quality` models a falsy option that is skipped, mirroring
`if (format) transforms.push(format)`. -/
structure TransformOptions where
  width : Option Nat
  height : Option Nat
  format : Option String
  quality : Option String
  shouldEnforceHttps : Bool

/-- The function `transformCloudinaryUrlForEmail` (mailer/utils/cloudinary.js),
parametrized by the runtime URL parser. The inner `validateHttps` call is
wrapped in try/catch by the source and only logs, so it cannot influence the
result. -/
def transformCloudinaryUrlForEmail (parseUrl : String → Option UrlObj)
    (url : String) (options : TransformOptions) : String :=
  if url.isEmpty then url
  else if !(isCloudinaryUrl url) then
    if options.shouldEnforceHttps then enforceHttps url else url
  else
    let httpsUrl := if options.shouldEnforceHttps then enforceHttps url else url
    let _ := validateHttps httpsUrl
    match parseCloudinaryUrl parseUrl httpsUrl with
    | none => httpsUrl
    | some parsed =>
      let transforms :=
        (match options.format with
         | some f => if f.isEmpty then [] else [f]
         | none => []) ++
        (match options.quality with
         | some q => if q.isEmpty then [] else [q]
         | none => []) ++
        (match options.width with
         | some w => if 0 < w then ["w_" ++ toString w] else []
         | none => []) ++
        (match options.height with
         | some h => if 0 < h then ["h_" ++ toString h] else []
         | none => [])
      let finalTransforms :=
        if transforms.length > 0 then some (joinWith "," transforms)
        else parsed.transforms
      buildCloudinaryUrl ⟨parsed.base, finalTransforms, parsed.version,
        parsed.imagePath⟩

/-! ### Prefix lemmas for the HTTPS-safety theorem -/

theorem startsWithChars_append_self (p t : List Char) :
    startsWithChars (p ++ t) p = true := by
  induction p with
  | nil => cases t <;> rfl
  | cons a as ih => simp [startsWithChars, ih]

theorem strStartsWith_of_data {s p : String} (t : List Char)
    (h : s.data = p.data ++ t) : strStartsWith s p = true := by
  show startsWithChars s.data p.data = true
  rw [h]
  exact startsWithChars_append_self _ _

theorem startsWithChars_trans {a b c : List Char}
    (h1 : startsWithChars a b = true) (h2 : startsWithChars b c = true) :
    startsWithChars a c = true := by
  induction c generalizing a b with
  | nil => cases a <;> rfl
  | cons x cs ih =>
    cases b with
    | nil => simp [startsWithChars] at h2
    | cons y bs =>
      cases a with
      | nil => simp [startsWithChars] at h1
      | cons z as =>
        simp only [startsWithChars, Bool.and_eq_true, beq_iff_eq] at h1 h2 ⊢
        obtain ⟨rfl, h1'⟩ := h1
        obtain ⟨rfl, h2'⟩ := h2
        exact ⟨rfl, ih h1' h2'⟩

theorem findSubIdx_zero_of_startsWith {s sub : List Char}
    (h : startsWithChars s sub = true) (hs : s ≠ []) :
    findSubIdx s sub = some 0 := by
  cases s with
  | nil => exact absurd rfl hs
  | cons c t => simp [findSubIdx, h]

theorem enforceHttps_starts (url : String) (hne : url ≠ "") :
    strStartsWith (enforceHttps url) "https://" = true := by
  have hemp : url.isEmpty = false := by
    rw [Bool.eq_false_iff]
    intro h
    rw [String.isEmpty_iff] at h
    exact hne h
  have hdata : url.data ≠ [] := by
    intro h
    refine hne (String.ext ?_)
    rw [h]
  unfold enforceHttps
  rw [if_neg (by rw [hemp]; exact Bool.false_ne_true)]
  by_cases h1 : strStartsWith url "https://" = true
  · rw [if_pos h1]
    exact h1
  · rw [if_neg h1]
    by_cases h2 : strStartsWith url "http://" = true
    · rw [if_pos h2]
      unfold replaceFirst
      rw [findSubIdx_zero_of_startsWith h2 hdata]
      apply strStartsWith_of_data
        (url.data.drop (0 + ("http://" : String).data.length))
      rfl
    · rw [if_neg h2, if_pos (by rw [Bool.eq_false_iff.2 h1, Bool.eq_false_iff.2 h2]; rfl)]
      exact strStartsWith_of_data url.data (String.data_append _ _)

theorem joinWith_starts (sep : String) (x : String) (xs : List String) :
    strStartsWith (joinWith sep (x :: xs)) x = true := by
  cases xs with
  | nil =>
    show startsWithChars x.data x.data = true
    simpa using startsWithChars_append_self x.data []
  | cons y ys =>
    show strStartsWith (x ++ sep ++ joinWith sep (y :: ys)) x = true
    apply strStartsWith_of_data (sep.data ++ (joinWith sep (y :: ys)).data)
    simp [String.data_append]

theorem base_starts_https (host cloudName : String) :
    strStartsWith ("https:" ++ "//" ++ host ++ "/" ++ cloudName) "https://" = true := by
  apply strStartsWith_of_data (host.data ++ '/' :: cloudName.data)
  simp [String.data_append]

theorem parseCloudinaryUrl_base (parseUrl : String → Option UrlObj)
    (hp : ∀ u o, parseUrl u = some o → strStartsWith u "https://" = true →
      o.protocol = "https:")
    (u : String) (hu : strStartsWith u "https://" = true)
    (parts : CloudinaryParts)
    (h : parseCloudinaryUrl parseUrl u = some parts) :
    strStartsWith parts.base "https://" = true := by
  unfold parseCloudinaryUrl at h
  split at h
  · cases h
  · cases ho : parseUrl u with
    | none => rw [ho] at h; cases h
    | some urlObj =>
      rw [ho] at h
      dsimp only at h
      have hproto := hp u urlObj ho hu
      split at h
      · split at h
        · cases h
        · split at h
          · cases h
          · cases h
            dsimp only
            rw [hproto]
            exact base_starts_https _ _
      · cases h

/-- C7: for every non-empty URL, `transformCloudinaryUrlForEmail` with
enforceHttps enabled is total (every throwing URL operation of the source is
caught) and returns a string starting with `"https://"` — for any runtime URL
parser that reports protocol `"https:"` on strings starting with
`"https://"`. Non-parseable Cloudinary URLs, non-Cloudinary URLs, `http://`
URLs and protocol-less URLs all degrade to the input URL with HTTPS forced. -/
theorem transformCloudinaryUrlForEmail_https (parseUrl : String → Option UrlObj)
    (hp : ∀ u o, parseUrl u = some o → strStartsWith u "https://" = true →
      o.protocol = "https:")
    (url : String) (hne : url ≠ "") (options : TransformOptions)
    (he : options.shouldEnforceHttps = true) :
    strStartsWith (transformCloudinaryUrlForEmail parseUrl url options)
      "https://" = true := by
  have hemp : url.isEmpty = false := by
    rw [Bool.eq_false_iff]
    intro h
    rw [String.isEmpty_iff] at h
    exact hne h
  have hforced := enforceHttps_starts url hne
  unfold transformCloudinaryUrlForEmail
  rw [if_neg (by rw [hemp]; exact Bool.false_ne_true)]
  have hsel : (if options.shouldEnforceHttps then enforceHttps url else url) =
      enforceHttps url := by simp [he]
  rw [hsel]
  by_cases hic : isCloudinaryUrl url = true
  · rw [if_neg (by rw [hic]; simp)]
    dsimp only
    cases hpc : parseCloudinaryUrl parseUrl (enforceHttps url) with
    | none => simpa [hpc] using hforced
    | some parsed =>
      have hbase := parseCloudinaryUrl_base parseUrl hp _ hforced parsed hpc
      dsimp only
      refine startsWithChars_trans ?_ hbase
      exact joinWith_starts "/" parsed.base _
  · rw [if_pos (by rw [Bool.eq_false_iff.2 hic]; rfl)]
    exact hforced

/-- C7 (witness): a concrete always-failing parser and an `http://` URL
degrade to the HTTPS-forced input. -/
theorem transformCloudinaryUrlForEmail_https_witness :
    strStartsWith (transformCloudinaryUrlForEmail (fun _ => none)
      "http://example.com/pic.jpg"
      ⟨some 600, none, some "f_jpg", some "q_auto", true⟩) "https://" = true :=
  transformCloudinaryUrlForEmail_https (fun _ => none)
    (fun _ _ h => nomatch h) "http://example.com/pic.jpg" (by decide)
    ⟨some 600, none, some "f_jpg", some "q_auto", true⟩ rfl

end FordMailer
